import Mathlib

/-!
Verification development for the Luma LV2 host
(`src/LV2JackX11Host.hpp`, `src/main.cpp`).

The definitions below are shallow embeddings of the host's data model and
operations: machine integers become `Nat` with explicit `% 2^32` where the
C code performs `uint32_t` arithmetic, byte buffers become `List Nat`, and
the lock-free ring buffer (whose implementation file `lv2_ringbuffer.h` is
not part of the sources) is modelled from the specification's contract.
-/

namespace Luma

/-! ## Byte-level encoding helpers

The host frames variable-length messages as `[size : u32][payload]` and
interprets atom buffers as packed little-endian C structs.  We model bytes
as `Nat` values (< 256 for real bytes) and multi-byte fields by their
little-endian byte lists. -/

/-- Little-endian byte encoding of a `uint32_t` value. -/
def u32le (n : Nat) : List Nat :=
  [n % 256, n / 256 % 256, n / 256 ^ 2 % 256, n / 256 ^ 3 % 256]

/-- Little-endian byte encoding of a 64-bit value (`int64_t` frame times). -/
def u64le (n : Nat) : List Nat :=
  [n % 256, n / 256 % 256, n / 256 ^ 2 % 256, n / 256 ^ 3 % 256,
   n / 256 ^ 4 % 256, n / 256 ^ 5 % 256, n / 256 ^ 6 % 256, n / 256 ^ 7 % 256]

/-- Decode the first four bytes of a buffer as a little-endian `uint32_t`
(reading a `uint32_t` field through a struct pointer). Missing bytes read
as zero. -/
def u32dec (l : List Nat) : Nat :=
  l.getD 0 0 + 256 * l.getD 1 0 + 256 ^ 2 * l.getD 2 0 + 256 ^ 3 * l.getD 3 0

/-- Decode eight bytes as a little-endian 64-bit value. -/
def u64dec (l : List Nat) : Nat :=
  l.getD 0 0 + 256 * l.getD 1 0 + 256 ^ 2 * l.getD 2 0 + 256 ^ 3 * l.getD 3 0 +
  256 ^ 4 * l.getD 4 0 + 256 ^ 5 * l.getD 5 0 + 256 ^ 6 * l.getD 6 0 +
  256 ^ 7 * l.getD 7 0

theorem u32le_length (n : Nat) : (u32le n).length = 4 := rfl

theorem u64le_length (n : Nat) : (u64le n).length = 8 := rfl

theorem u32dec_u32le (n : Nat) (h : n < 2 ^ 32) : u32dec (u32le n) = n := by
  simp [u32le, u32dec, List.getD]
  omega

theorem u64dec_u64le (n : Nat) (h : n < 2 ^ 64) : u64dec (u64le n) = n := by
  simp [u64le, u64dec, List.getD]
  omega

/-! ## URID registry (`map_uri` / `unmap_uri`, lines 569-592)

The host keeps two hash maps, `urid_map : uri -> id` and
`urid_unmap : id -> uri`.  We embed them as association lists; insertion
order is irrelevant to lookups because keys are unique (the code inserts a
key only after a failed lookup), and `unordered_map::size()` is the number
of entries, i.e. the list length. -/

structure UridState where
  urid_map : List (String × Nat)
  urid_unmap : List (Nat × String)
  deriving Repr, DecidableEq

/-- `map_uri` (lines 569-579): return the existing id if the URI is known,
otherwise assign `urid_map.size() + 1` and record it in both maps. -/
def map_uri (s : UridState) (uri : String) : Nat × UridState :=
  match s.urid_map.lookup uri with
  | some id => (id, s)
  | none =>
    let id := s.urid_map.length + 1
    (id, { urid_map := (uri, id) :: s.urid_map,
           urid_unmap := (id, uri) :: s.urid_unmap })

/-- `unmap_uri` (lines 581-589): return the URI for a known id, `none`
(the C code's `nullptr`) otherwise. -/
def unmap_uri (s : UridState) (urid : Nat) : Option String :=
  s.urid_unmap.lookup urid

/-- The registry invariant: both maps have the same cardinality, they are
mutually inverse, and the assigned ids are exactly `1 .. size`. It holds
for the empty registry and is preserved by `map_uri`. -/
def UridWF (s : UridState) : Prop :=
  s.urid_unmap.length = s.urid_map.length ∧
  (∀ u id, s.urid_map.lookup u = some id → s.urid_unmap.lookup id = some u) ∧
  (∀ id, (s.urid_unmap.lookup id).isSome ↔ 1 ≤ id ∧ id ≤ s.urid_map.length)

theorem lookup_cons_self {α β : Type} [BEq α] [LawfulBEq α]
    (k : α) (b : β) (es : List (α × β)) :
    List.lookup k ((k, b) :: es) = some b := by
  simp [List.lookup]

theorem lookup_cons_ne {α β : Type} [BEq α] [LawfulBEq α]
    (k k' : α) (b : β) (es : List (α × β)) (h : k ≠ k') :
    List.lookup k ((k', b) :: es) = List.lookup k es := by
  have hb : (k == k') = false := beq_eq_false_iff_ne.mpr h
  simp [List.lookup, hb]

theorem uridWF_empty : UridWF ⟨[], []⟩ := by
  refine ⟨rfl, ?_, ?_⟩
  · intro u id h; simp [List.lookup] at h
  · intro id
    rw [List.lookup]
    simp only [Option.isSome_none, List.length_nil]
    constructor
    · intro h; cases h
    · intro h; omega

theorem uridWF_preserved (s : UridState) (u : String) (h : UridWF s) :
    UridWF (map_uri s u).2 := by
  obtain ⟨hlen, hinv, hdom⟩ := h
  cases hfind : s.urid_map.lookup u with
  | some id =>
    simp only [map_uri, hfind]
    exact ⟨hlen, hinv, hdom⟩
  | none =>
    simp only [map_uri, hfind]
    refine ⟨by simp [hlen], ?_, ?_⟩
    · intro u' id' hl
      by_cases hu : u' = u
      · subst hu
        rw [lookup_cons_self] at hl
        injection hl with hl
        subst hl
        exact lookup_cons_self _ _ _
      · rw [lookup_cons_ne _ _ _ _ hu] at hl
        have hold := hinv u' id' hl
        have hle : id' ≤ s.urid_map.length := by
          have := (hdom id').mp (by simp [hold])
          exact this.2
        rw [lookup_cons_ne _ _ _ _ (by omega)]
        exact hold
    · intro id
      by_cases hid : id = s.urid_map.length + 1
      · subst hid
        rw [lookup_cons_self]
        simp only [Option.isSome_some, List.length_cons]
        constructor
        · intro _; omega
        · intro _; trivial
      · rw [lookup_cons_ne _ _ _ _ hid]
        rw [hdom id]
        simp only [List.length_cons]
        omega

theorem map_uri_twice (s : UridState) (u : String) :
    (map_uri (map_uri s u).2 u).1 = (map_uri s u).1 := by
  cases hfind : s.urid_map.lookup u with
  | some id => simp only [map_uri, hfind]
  | none =>
    simp only [map_uri, hfind]
    rw [lookup_cons_self]

theorem unmap_map_uri (s : UridState) (u : String) (h : UridWF s) :
    unmap_uri (map_uri s u).2 (map_uri s u).1 = some u := by
  obtain ⟨hlen, hinv, hdom⟩ := h
  cases hfind : s.urid_map.lookup u with
  | some id =>
    simp only [map_uri, hfind, unmap_uri]
    exact hinv u id hfind
  | none =>
    simp only [map_uri, hfind, unmap_uri]
    exact lookup_cons_self _ _ _

/-- C3: for every URI `u`, mapping twice returns the same id; a URI seen
for the first time gets id `size + 1`, so ids are dense, strictly positive
and monotonically assigned; `unmap` of a mapped id returns the URI; and
`unmap` of a never-assigned id returns `none` (the C `nullptr`). Stated
over registries satisfying the reachability invariant `UridWF`, which
holds for the empty registry and is preserved by `map_uri`. -/
theorem claim_C3 (s : UridState) (u : String) (h : UridWF s) :
    (map_uri (map_uri s u).2 u).1 = (map_uri s u).1 ∧
    (s.urid_map.lookup u = none → (map_uri s u).1 = s.urid_map.length + 1) ∧
    1 ≤ (map_uri s u).1 ∧
    unmap_uri (map_uri s u).2 (map_uri s u).1 = some u ∧
    (∀ i, i = 0 ∨ s.urid_map.length < i → unmap_uri s i = none) := by
  obtain ⟨hlen, hinv, hdom⟩ := h
  refine ⟨map_uri_twice s u, ?_, ?_, unmap_map_uri s u ⟨hlen, hinv, hdom⟩, ?_⟩
  · intro hfind
    simp only [map_uri, hfind]
  · cases hfind : s.urid_map.lookup u with
    | some id =>
      simp only [map_uri, hfind]
      have := (hdom id).mp (by simp [hinv u id hfind])
      exact this.1
    | none =>
      simp only [map_uri, hfind]
      omega
  · intro i hi
    have : ¬ (s.urid_unmap.lookup i).isSome := by
      rw [hdom i]
      omega
    unfold unmap_uri
    cases hcase : s.urid_unmap.lookup i with
    | none => rfl
    | some v => rw [hcase] at this; simp at this

/-- Witness for C3: the invariant holds at the empty registry, and the
properties evaluate as expected for a concrete URI. -/
theorem claim_C3_witness :
    UridWF ⟨[], []⟩ ∧
    ((map_uri (map_uri ⟨[], []⟩ "urn:a").2 "urn:a").1 =
        (map_uri ⟨[], []⟩ "urn:a").1 ∧
      (List.lookup "urn:a" (UridState.urid_map ⟨[], []⟩) = none →
        (map_uri ⟨[], []⟩ "urn:a").1 =
          (UridState.urid_map ⟨[], []⟩).length + 1) ∧
      1 ≤ (map_uri ⟨[], []⟩ "urn:a").1 ∧
      unmap_uri (map_uri ⟨[], []⟩ "urn:a").2 (map_uri ⟨[], []⟩ "urn:a").1 =
        some "urn:a" ∧
      (∀ i, i = 0 ∨ (UridState.urid_map ⟨[], []⟩).length < i →
        unmap_uri ⟨[], []⟩ i = none)) :=
  ⟨uridWF_empty, claim_C3 ⟨[], []⟩ "urn:a" uridWF_empty⟩

/-! ## Ring buffer

Modelled from the spec: the implementation file `lv2_ringbuffer.h` is not
part of the repository sources, only its callers are.  Per the spec, the
ring is a single-producer/single-reader byte FIFO with `write_space`,
`read_space`, `write`, `read` and `peek`; writes that exceed `write_space`
fail atomically, writing nothing, and
`write_space + read_space ≤ capacity − 1`. We model the readable content
as the byte list `buf`, with `read_space = buf.length` and
`write_space = cap − 1 − buf.length`. -/

structure Ring where
  cap : Nat
  buf : List Nat
  deriving Repr, DecidableEq

/-- Modelled from the spec: `lv2_ringbuffer_write_space`. -/
def write_space (r : Ring) : Nat := r.cap - 1 - r.buf.length

/-- Modelled from the spec: `lv2_ringbuffer_read_space`. -/
def read_space (r : Ring) : Nat := r.buf.length

/-- Modelled from the spec: `lv2_ringbuffer_write` appends the bytes when
they fit and otherwise fails, writing nothing. -/
def ringWrite (r : Ring) (bs : List Nat) : Ring :=
  if bs.length ≤ write_space r then { r with buf := r.buf ++ bs } else r

/-! ## Worker subsystem (lines 360-486)

`LV2HostWorker` holds a request ring and a response ring; the audio
thread frames requests via `host_schedule_work`, the worker thread
replies via `host_respond`, and `deliver_worker_responses` drains the
response ring at the end of each audio cycle.  A C payload is a
`(size, data)` pair with `data` pointing at `size` bytes; we model it as
the byte list of exactly those bytes. -/

inductive WorkerStatus where
  | success
  | errNoSpace
  deriving Repr, DecidableEq

structure LV2HostWorker where
  requests : Ring
  responses : Ring
  work_pending : Bool
  deriving Repr, DecidableEq

/-- `host_schedule_work` (lines 385-399): if the request ring lacks room
for `4 + size` bytes return `LV2_WORKER_ERR_NO_SPACE`; otherwise write
the `u32` size then the payload and set `work_pending`. -/
def host_schedule_work (w : LV2HostWorker) (payload : List Nat) :
    WorkerStatus × LV2HostWorker :=
  if write_space w.requests < 4 + payload.length then (.errNoSpace, w)
  else
    (.success,
      { w with
        requests := ringWrite (ringWrite w.requests (u32le payload.length)) payload,
        work_pending := true })

/-- `host_respond` (lines 428-443): same framing into the response ring. -/
def host_respond (w : LV2HostWorker) (payload : List Nat) :
    WorkerStatus × LV2HostWorker :=
  if write_space w.responses < 4 + payload.length then (.errNoSpace, w)
  else
    (.success,
      { w with
        responses := ringWrite (ringWrite w.responses (u32le payload.length)) payload })

/-- `deliver_worker_responses` (lines 446-462): repeatedly peek a `u32`
size header, stop when fewer than 4 bytes or fewer than `4 + size` bytes
remain, otherwise read the frame and hand the payload to
`work_response`.  Returns the delivered payloads in order and the final
ring.  `fuel` bounds the iteration count (each pass consumes at least 4
bytes, so `buf.length` passes always suffice). -/
def deliver_worker_responses : Nat → Ring → List (List Nat) × Ring
  | 0, r => ([], r)
  | fuel + 1, r =>
    if read_space r < 4 then ([], r)
    else
      let size := u32dec (r.buf.take 4)
      if read_space r < 4 + size then ([], r)
      else
        let payload := (r.buf.drop 4).take size
        let r' : Ring := { r with buf := r.buf.drop (4 + size) }
        let rest := deliver_worker_responses fuel r'
        (payload :: rest.1, rest.2)

/-- The framing convention `[size : u32][payload]`, applied to a list of
payloads in FIFO order. -/
def joinFrames (ss : List (List Nat)) : List Nat :=
  (ss.map (fun s => u32le s.length ++ s)).flatten

/-- A byte list is an incomplete frame when it is shorter than the 4-byte
header, or shorter than the payload its header announces. -/
def IncompleteFrame (p : List Nat) : Prop :=
  p.length < 4 ∨ p.length < 4 + u32dec (p.take 4)

/-- A byte list that consists of whole `[size : u32][payload]` frames. -/
inductive IsFrames : List Nat → Prop
  | nil : IsFrames []
  | cons (payload rest : List Nat) : payload.length < 2 ^ 32 →
      IsFrames rest → IsFrames (u32le payload.length ++ payload ++ rest)

theorem isFrames_append {a b : List Nat} (ha : IsFrames a) (hb : IsFrames b) :
    IsFrames (a ++ b) := by
  induction ha with
  | nil => simpa using hb
  | cons payload rest hlt _ ih =>
    rw [List.append_assoc, List.append_assoc] at *
    exact IsFrames.cons payload (rest ++ b) hlt ih

theorem isFrames_single (payload : List Nat) (h : payload.length < 2 ^ 32) :
    IsFrames (u32le payload.length ++ payload) := by
  have := IsFrames.cons payload [] h IsFrames.nil
  simpa using this

theorem ringWrite_buf (r : Ring) (bs : List Nat)
    (h : bs.length ≤ write_space r) :
    ringWrite r bs = { r with buf := r.buf ++ bs } := by
  simp [ringWrite, h]

theorem ringWrite_frame (r : Ring) (payload : List Nat)
    (h : 4 + payload.length ≤ write_space r) :
    ringWrite (ringWrite r (u32le payload.length)) payload =
      { r with buf := r.buf ++ (u32le payload.length ++ payload) } := by
  rw [ringWrite_buf r _ (by simp [u32le_length, write_space] at h ⊢; omega)]
  rw [ringWrite_buf _ _
    (by simp only [write_space] at h ⊢
        simp only [List.length_append, u32le_length]
        omega)]
  simp

/-- C5: a call to `host_schedule_work` or `host_respond` with less than
`4 + size` bytes of write space returns the no-space error and leaves the
target ring untouched; otherwise it appends exactly the frame
`[size : u32][payload]` and returns success; consequently both rings only
ever hold whole frames. -/
theorem claim_C5 (w : LV2HostWorker) (payload : List Nat)
    (h32 : payload.length < 2 ^ 32) :
    (write_space w.requests < 4 + payload.length →
      host_schedule_work w payload = (.errNoSpace, w)) ∧
    (4 + payload.length ≤ write_space w.requests →
      host_schedule_work w payload =
        (.success,
          { w with
            requests := { w.requests with
              buf := w.requests.buf ++ (u32le payload.length ++ payload) },
            work_pending := true })) ∧
    (write_space w.responses < 4 + payload.length →
      host_respond w payload = (.errNoSpace, w)) ∧
    (4 + payload.length ≤ write_space w.responses →
      host_respond w payload =
        (.success,
          { w with
            responses := { w.responses with
              buf := w.responses.buf ++ (u32le payload.length ++ payload) } })) ∧
    (IsFrames w.requests.buf →
      IsFrames (host_schedule_work w payload).2.requests.buf) ∧
    (IsFrames w.responses.buf →
      IsFrames (host_respond w payload).2.responses.buf) := by
  have hreq : 4 + payload.length ≤ write_space w.requests →
      host_schedule_work w payload =
        (.success,
          { w with
            requests := { w.requests with
              buf := w.requests.buf ++ (u32le payload.length ++ payload) },
            work_pending := true }) := by
    intro hs
    unfold host_schedule_work
    rw [if_neg (by omega), ringWrite_frame _ _ hs]
  have hresp : 4 + payload.length ≤ write_space w.responses →
      host_respond w payload =
        (.success,
          { w with
            responses := { w.responses with
              buf := w.responses.buf ++ (u32le payload.length ++ payload) } }) := by
    intro hs
    unfold host_respond
    rw [if_neg (by omega), ringWrite_frame _ _ hs]
  refine ⟨?_, hreq, ?_, hresp, ?_, ?_⟩
  · intro hs
    unfold host_schedule_work
    rw [if_pos (by omega)]
  · intro hs
    unfold host_respond
    rw [if_pos (by omega)]
  · intro hf
    by_cases hs : 4 + payload.length ≤ write_space w.requests
    · rw [hreq hs]
      exact isFrames_append hf (isFrames_single payload h32)
    · unfold host_schedule_work
      rw [if_pos (by omega)]
      exact hf
  · intro hf
    by_cases hs : 4 + payload.length ≤ write_space w.responses
    · rw [hresp hs]
      exact isFrames_append hf (isFrames_single payload h32)
    · unfold host_respond
      rw [if_pos (by omega)]
      exact hf

/-- Witness for C5 at a concrete worker: a ring of capacity 10 has write
space 9, too small for a 12-byte frame, and a ring of capacity 100 takes
the whole frame. -/
theorem claim_C5_witness :
    ([7, 7, 7, 7, 7, 7, 7, 7].length < 2 ^ 32 ∧
      write_space (Ring.mk 10 []) < 4 + ([7, 7, 7, 7, 7, 7, 7, 7] : List Nat).length) ∧
    host_schedule_work ⟨⟨10, []⟩, ⟨10, []⟩, false⟩ [7, 7, 7, 7, 7, 7, 7, 7] =
      (.errNoSpace, ⟨⟨10, []⟩, ⟨10, []⟩, false⟩) := by
  have h := claim_C5 ⟨⟨10, []⟩, ⟨10, []⟩, false⟩ [7, 7, 7, 7, 7, 7, 7, 7]
    (by decide)
  exact ⟨⟨by decide, by decide⟩, h.1 (by decide)⟩

/-- The worker's `respond` callback applied to a whole list of payloads in
production order (the plugin may call `respond` several times during one
`work` invocation). -/
def respond_all (w : LV2HostWorker) (ss : List (List Nat)) : LV2HostWorker :=
  ss.foldl (fun w s => (host_respond w s).2) w

theorem joinFrames_cons (s : List Nat) (ss : List (List Nat)) :
    joinFrames (s :: ss) = (u32le s.length ++ s) ++ joinFrames ss := by
  simp [joinFrames]

theorem respond_all_buf (ss : List (List Nat)) (w : LV2HostWorker)
    (hcap : w.responses.buf.length + (joinFrames ss).length + 1 ≤ w.responses.cap) :
    (respond_all w ss).responses =
      { w.responses with buf := w.responses.buf ++ joinFrames ss } := by
  induction ss generalizing w with
  | nil => simp [respond_all, joinFrames]
  | cons s ss ih =>
    rw [joinFrames_cons] at hcap ⊢
    have hlen : 4 + s.length + (joinFrames ss).length + w.responses.buf.length + 1
        ≤ w.responses.cap := by
      simp only [List.length_append, u32le_length] at hcap
      omega
    have hs : 4 + s.length ≤ write_space w.responses := by
      simp only [write_space]
      omega
    have hstep : host_respond w s =
        (.success,
          { w with responses := { w.responses with
              buf := w.responses.buf ++ (u32le s.length ++ s) } }) := by
      unfold host_respond
      rw [if_neg (by omega), ringWrite_frame _ _ hs]
    unfold respond_all
    rw [List.foldl_cons, hstep]
    have := ih { w with responses := { w.responses with
        buf := w.responses.buf ++ (u32le s.length ++ s) } }
      (by simp only [List.length_append, u32le_length]
          simp only [List.length_append, u32le_length] at hcap
          omega)
    unfold respond_all at this
    rw [this]
    simp

/-- Draining a ring whose content is a run of whole frames followed by an
incomplete tail delivers exactly the framed payloads, in order, and stops
with the tail still in the ring. -/
theorem drain_frames (ss : List (List Nat)) (t : List Nat) (cap fuel : Nat)
    (h32 : ∀ s ∈ ss, s.length < 2 ^ 32) (ht : IncompleteFrame t)
    (hfuel : ss.length ≤ fuel) :
    deliver_worker_responses fuel ⟨cap, joinFrames ss ++ t⟩ = (ss, ⟨cap, t⟩) := by
  induction ss generalizing fuel with
  | nil =>
    simp only [joinFrames, List.map_nil, List.flatten_nil, List.nil_append]
    cases fuel with
    | zero => rfl
    | succ f =>
      unfold deliver_worker_responses
      rcases ht with h | h
      · rw [if_pos (by simpa [read_space] using h)]
      · by_cases h4 : t.length < 4
        · rw [if_pos (by simpa [read_space] using h4)]
        · rw [if_neg (by simpa [read_space] using h4),
              if_pos (by simpa [read_space] using h)]
  | cons s ss ih =>
    cases fuel with
    | zero => simp at hfuel
    | succ f =>
      have hs32 : s.length < 2 ^ 32 := h32 s (by simp)
      unfold deliver_worker_responses
      rw [joinFrames_cons, List.append_assoc, List.append_assoc]
      have hhdr : ((u32le s.length ++ (s ++ (joinFrames ss ++ t))).take 4)
          = u32le s.length := List.take_left' (u32le_length _)
      have hlen : (u32le s.length ++ (s ++ (joinFrames ss ++ t))).length
          = 4 + (s.length + ((joinFrames ss).length + t.length)) := by
        simp [u32le_length]
      rw [if_neg (by simp only [read_space, hlen]; omega)]
      simp only [read_space, hhdr, u32dec_u32le _ hs32, hlen]
      rw [if_neg (by omega)]
      have hdrop4 : (u32le s.length ++ (s ++ (joinFrames ss ++ t))).drop 4
          = s ++ (joinFrames ss ++ t) := List.drop_left' (u32le_length _)
      have hpay : ((u32le s.length ++ (s ++ (joinFrames ss ++ t))).drop 4).take s.length
          = s := by
        rw [hdrop4]
        exact List.take_left _ _
      have hrest : (u32le s.length ++ (s ++ (joinFrames ss ++ t))).drop (4 + s.length)
          = joinFrames ss ++ t := by
        rw [show u32le s.length ++ (s ++ (joinFrames ss ++ t))
            = (u32le s.length ++ s) ++ (joinFrames ss ++ t) by simp,
          List.drop_left' (by simp [u32le_length])]
      rw [hpay, hrest]
      rw [ih f (fun x hx => h32 x (List.mem_cons_of_mem s hx))
        (by simpa using hfuel)]

theorem length_le_joinFrames (ss : List (List Nat)) :
    ss.length ≤ (joinFrames ss).length := by
  induction ss with
  | nil => simp [joinFrames]
  | cons s ss ih =>
    rw [joinFrames_cons]
    simp only [List.length_cons, List.length_append, u32le_length]
    omega

/-- C4: responses produced by the plugin through `respond` during `work`
are framed into the response ring in order; draining the ring at the end
of the audio cycle delivers each payload to `work_response` exactly once,
in FIFO order, byte-identical to what `respond` received; and draining
stops without delivery when the remaining content is an incomplete frame
(fewer than 4 header bytes or fewer payload bytes than announced). -/
theorem claim_C4 (ss : List (List Nat)) (t : List Nat) (cap : Nat)
    (w : LV2HostWorker)
    (h32 : ∀ s ∈ ss, s.length < 2 ^ 32)
    (hw : w.responses = ⟨cap, []⟩)
    (hcap : (joinFrames ss).length + 1 ≤ cap)
    (ht : IncompleteFrame t) :
    deliver_worker_responses (joinFrames ss).length (respond_all w ss).responses
      = (ss, ⟨cap, []⟩) ∧
    deliver_worker_responses (ss.length) ⟨cap, joinFrames ss ++ t⟩
      = (ss, ⟨cap, t⟩) := by
  constructor
  · have hbuf := respond_all_buf ss w (by rw [hw]; simpa using hcap)
    rw [hbuf, hw]
    have hfuel : ss.length ≤ (joinFrames ss).length := length_le_joinFrames ss
    have := drain_frames ss [] cap (joinFrames ss).length h32
      (by left; simp [IncompleteFrame]) hfuel
    simpa using this
  · exact drain_frames ss t cap ss.length h32 ht le_rfl

/-- Witness for C4 with two concrete three-byte responses and a dangling
2-byte tail. -/
theorem claim_C4_witness :
    ((∀ s ∈ [[1, 2, 3], [9, 8, 7]], List.length s < 2 ^ 32) ∧
      (LV2HostWorker.responses ⟨⟨64, []⟩, ⟨64, []⟩, false⟩ = ⟨64, []⟩) ∧
      (joinFrames [[1, 2, 3], [9, 8, 7]]).length + 1 ≤ 64 ∧
      IncompleteFrame [5, 5]) ∧
    deliver_worker_responses (joinFrames [[1, 2, 3], [9, 8, 7]]).length
        (respond_all ⟨⟨64, []⟩, ⟨64, []⟩, false⟩ [[1, 2, 3], [9, 8, 7]]).responses
      = ([[1, 2, 3], [9, 8, 7]], ⟨64, []⟩) ∧
    deliver_worker_responses 2 ⟨64, joinFrames [[1, 2, 3], [9, 8, 7]] ++ [5, 5]⟩
      = ([[1, 2, 3], [9, 8, 7]], ⟨64, [5, 5]⟩) := by
  refine ⟨⟨by decide, rfl, by decide, by left; decide⟩, ?_⟩
  exact claim_C4 [[1, 2, 3], [9, 8, 7]] [5, 5] 64 ⟨⟨64, []⟩, ⟨64, []⟩, false⟩
    (by decide) rfl (by decide) (by left; decide)

/-! ## Output atom ports: DSP → UI drain (`process` lines 982-1001,
`run_ui_loop` lines 178-191)

After `run`, the host iterates the sequence the plugin wrote
(`LV2_ATOM_SEQUENCE_FOREACH`).  We model the events the iterator visits
as a list; for each event the host copies `[atom-header][body]`
(`sizeof(LV2_Atom) + ev->body.size` bytes starting at `&ev->body`, i.e.
`[size : u32][type : u32][body]`) into the DSP→UI ring when it fits, and
forwards MIDI-typed events to the host MIDI output.  Note that the loop
contains `if (ev->body.size == 0) break;` and
`if (p.atom->atom.type == 0) break;` — `break`, not `continue`. -/

structure AtomEv where
  time : Nat
  typ : Nat
  body : List Nat
  deriving Repr, DecidableEq

/-- The bytes written to the DSP→UI ring for one event:
`(const char*)&ev->body`, `sizeof(LV2_Atom) + ev->body.size` bytes. -/
def atomEvFrame (e : AtomEv) : List Nat :=
  u32le e.body.length ++ u32le e.typ ++ e.body

def atomFrames (evs : List AtomEv) : List Nat :=
  (evs.map atomEvFrame).flatten

/-- The output-port drain loop of `process` (lines 982-998):
`containerType` is `p.atom->atom.type` as the plugin left it; returns the
ring and the `(frame, bytes)` pairs passed to `jack_midi_event_write`. -/
def drain_output_events (midiURID containerType : Nat) :
    List AtomEv → Ring → Ring × List (Nat × List Nat)
  | [], r => (r, [])
  | ev :: rest, r =>
    if ev.body.length = 0 then (r, [])
    else if containerType = 0 then (r, [])
    else
      let total := 8 + ev.body.length
      let r' := if total ≤ write_space r then ringWrite r (atomEvFrame ev) else r
      let next := drain_output_events midiURID containerType rest r'
      (next.1,
       (if ev.typ = midiURID then [(ev.time, ev.body)] else []) ++ next.2)

/-- The UI-loop drain of one port's DSP→UI ring (`run_ui_loop` lines
182-191): peek an `LV2_Atom` header (8 bytes, `size` first), stop when
fewer than `8 + size` bytes remain, otherwise read the whole frame and
hand it to `port_event`.  Returns the frames delivered to the UI in
order. -/
def ui_drain_atom : Nat → Ring → List (List Nat) × Ring
  | 0, r => ([], r)
  | fuel + 1, r =>
    if read_space r < 8 then ([], r)
    else
      let hsize := u32dec (r.buf.take 4)
      if read_space r < 8 + hsize then ([], r)
      else
        let frame := r.buf.take (8 + hsize)
        let rest := ui_drain_atom fuel { r with buf := r.buf.drop (8 + hsize) }
        (frame :: rest.1, rest.2)

theorem atomEvFrame_length (e : AtomEv) :
    (atomEvFrame e).length = 8 + e.body.length := by
  simp [atomEvFrame, u32le_length]
  omega

theorem atomFrames_cons (e : AtomEv) (evs : List AtomEv) :
    atomFrames (e :: evs) = atomEvFrame e ++ atomFrames evs := by
  simp [atomFrames]

theorem ui_drain_atomFrames (evs : List AtomEv) (cap fuel : Nat)
    (h32 : ∀ e ∈ evs, e.body.length < 2 ^ 32)
    (hfuel : evs.length ≤ fuel) :
    ui_drain_atom fuel ⟨cap, atomFrames evs⟩ =
      (evs.map atomEvFrame, ⟨cap, []⟩) := by
  induction evs generalizing fuel with
  | nil =>
    cases fuel with
    | zero => rfl
    | succ f =>
      unfold ui_drain_atom
      rw [if_pos (by simp [read_space, atomFrames])]
      simp [atomFrames]
  | cons e evs ih =>
    cases fuel with
    | zero => simp at hfuel
    | succ f =>
      have he32 : e.body.length < 2 ^ 32 := h32 e (by simp)
      unfold ui_drain_atom
      rw [atomFrames_cons]
      have hlen : (atomEvFrame e ++ atomFrames evs).length
          = 8 + e.body.length + (atomFrames evs).length := by
        simp [atomEvFrame_length]
      have hhdr : (atomEvFrame e ++ atomFrames evs).take 4 = u32le e.body.length := by
        rw [show atomEvFrame e ++ atomFrames evs
            = u32le e.body.length ++ (u32le e.typ ++ e.body ++ atomFrames evs) by
              simp [atomEvFrame]]
        exact List.take_left' (u32le_length _)
      rw [if_neg (by simp only [read_space, hlen]; omega)]
      simp only [read_space, hhdr, u32dec_u32le _ he32, hlen]
      rw [if_neg (by omega)]
      have hframe : (atomEvFrame e ++ atomFrames evs).take (8 + e.body.length)
          = atomEvFrame e := List.take_left' (atomEvFrame_length e)
      have hrest : (atomEvFrame e ++ atomFrames evs).drop (8 + e.body.length)
          = atomFrames evs := List.drop_left' (atomEvFrame_length e)
      rw [hframe, hrest,
        ih f (fun x hx => h32 x (List.mem_cons_of_mem e hx)) (by simpa using hfuel)]
      simp

theorem drain_output_acc (midiU cT : Nat) (hcT : cT ≠ 0)
    (evs : List AtomEv) (r : Ring)
    (hnz : ∀ e ∈ evs, e.body ≠ [])
    (hcap : r.buf.length + (atomFrames evs).length + 1 ≤ r.cap) :
    drain_output_events midiU cT evs r =
      ({ r with buf := r.buf ++ atomFrames evs },
       (evs.filter (fun e => e.typ == midiU)).map (fun e => (e.time, e.body))) := by
  induction evs generalizing r with
  | nil => simp [drain_output_events, atomFrames]
  | cons e evs ih =>
    rw [atomFrames_cons] at hcap
    have hlen : (atomEvFrame e ++ atomFrames evs).length
        = 8 + e.body.length + (atomFrames evs).length := by
      simp [atomEvFrame_length]
    have hnz0 : ¬ e.body.length = 0 := by
      have := hnz e (by simp)
      simpa [List.length_eq_zero] using this
    have hsp : (atomEvFrame e).length ≤ write_space r := by
      rw [atomEvFrame_length]
      simp only [write_space]
      simp only [hlen] at hcap
      omega
    have hsp8 : 8 + e.body.length ≤ write_space r := by
      simpa [atomEvFrame_length] using hsp
    unfold drain_output_events
    rw [if_neg hnz0, if_neg hcT]
    simp only [if_pos hsp8, ringWrite_buf r _ hsp]
    rw [ih { r with buf := r.buf ++ atomEvFrame e }
      (fun x hx => hnz x (List.mem_cons_of_mem e hx))
      (by simp only [List.length_append, atomEvFrame_length]
          simp only [hlen] at hcap
          omega)]
    by_cases he : e.typ = midiU <;>
      simp [List.filter_cons, he, List.append_assoc, atomFrames_cons]

theorem drain_output_stops (midiU cT : Nat) (pre post : List AtomEv)
    (z : AtomEv) (hz : z.body = []) (hcT : cT ≠ 0)
    (hpre : ∀ e ∈ pre, e.body ≠ []) (r : Ring) :
    drain_output_events midiU cT (pre ++ z :: post) r =
      drain_output_events midiU cT pre r := by
  induction pre generalizing r with
  | nil => simp [drain_output_events, hz]
  | cons e pre ih =>
    have hnz0 : ¬ e.body.length = 0 := by
      simpa [List.length_eq_zero] using hpre e (by simp)
    simp only [List.cons_append]
    unfold drain_output_events
    rw [if_neg hnz0, if_neg hcT, if_neg hnz0, if_neg hcT]
    simp only [ih (fun x hx => hpre x (List.mem_cons_of_mem e hx))]

/-- Counterexample for C2 as stated: the plugin writes a zero-size event
followed by a nonzero MIDI event into a sequence whose type is set
(type 2) with ample ring capacity.  The claim predicts the UI observes
the one nonzero event and the MIDI bytes reach the host MIDI output; the
code's `break` delivers nothing. -/
theorem claim_C2_cex :
    (ui_drain_atom 2
        (drain_output_events 8 2 [⟨0, 5, []⟩, ⟨0, 8, [144, 60, 127]⟩]
          ⟨100, []⟩).1).1.length = 0 ∧
    (([⟨0, 5, []⟩, ⟨0, 8, [144, 60, 127]⟩] : List AtomEv).filter
        (fun e => e.body.length != 0)).length = 1 ∧
    (drain_output_events 8 2 [⟨0, 5, []⟩, ⟨0, 8, [144, 60, 127]⟩]
        ⟨100, []⟩).2 = [] := by
  refine ⟨?_, by decide, ?_⟩ <;> decide

/-- C2 (amended): the drain loop stops at the first zero-size event and
delivers nothing when the container type was never set (the code uses
`break`, not skip).  For a written sequence with container type set and
no zero-size events, when the ring has capacity: every event is copied
into the DSP→UI ring as `[atom-header][body]` in order, the UI drain
observes exactly as many events as the plugin wrote (byte-identical
frames), and each MIDI-typed event is additionally written to the host
MIDI output at its event time. -/
theorem claim_C2 (midiU cT cap : Nat) (evs pre post : List AtomEv)
    (z : AtomEv)
    (hcT : cT ≠ 0)
    (hnz : ∀ e ∈ evs, e.body ≠ [])
    (h32 : ∀ e ∈ evs, e.body.length < 2 ^ 32)
    (hcap : (atomFrames evs).length + 1 ≤ cap)
    (hz : z.body = [])
    (hpre : ∀ e ∈ pre, e.body ≠ []) :
    (drain_output_events midiU cT evs ⟨cap, []⟩).1.buf = atomFrames evs ∧
    ui_drain_atom evs.length ⟨cap, atomFrames evs⟩ =
      (evs.map atomEvFrame, ⟨cap, []⟩) ∧
    (ui_drain_atom evs.length ⟨cap, atomFrames evs⟩).1.length = evs.length ∧
    (drain_output_events midiU cT evs ⟨cap, []⟩).2 =
      (evs.filter (fun e => e.typ == midiU)).map (fun e => (e.time, e.body)) ∧
    (∀ (evs' : List AtomEv) (r : Ring),
      drain_output_events midiU 0 evs' r = (r, [])) ∧
    (∀ r : Ring, drain_output_events midiU cT (pre ++ z :: post) r =
      drain_output_events midiU cT pre r) := by
  have hacc := drain_output_acc midiU cT hcT evs ⟨cap, []⟩ hnz (by simpa using hcap)
  have hui := ui_drain_atomFrames evs cap evs.length h32 le_rfl
  refine ⟨by rw [hacc]; simp, hui, by rw [hui]; simp, by rw [hacc], ?_, ?_⟩
  · intro evs' r
    cases evs' with
    | nil => rfl
    | cons e evs' =>
      unfold drain_output_events
      by_cases h0 : e.body.length = 0
      · rw [if_pos h0]
      · rw [if_neg h0, if_pos rfl]
  · intro r
    exact drain_output_stops midiU cT pre post z hz hcT hpre r

/-- Witness for C2 (amended) at a concrete two-event sequence, one MIDI
event and one non-MIDI event, plus a concrete stop-at-zero scenario. -/
theorem claim_C2_witness :
    ((2 : Nat) ≠ 0 ∧
      (∀ e ∈ [AtomEv.mk 0 8 [144, 60, 127], AtomEv.mk 5 3 [1, 2]], AtomEv.body e ≠ []) ∧
      (∀ e ∈ [AtomEv.mk 0 8 [144, 60, 127], AtomEv.mk 5 3 [1, 2]],
        (AtomEv.body e).length < 2 ^ 32) ∧
      (atomFrames [AtomEv.mk 0 8 [144, 60, 127], AtomEv.mk 5 3 [1, 2]]).length + 1 ≤ 100 ∧
      AtomEv.body ⟨7, 9, []⟩ = ([] : List Nat) ∧
      (∀ e ∈ [AtomEv.mk 0 8 [144, 60, 127]], AtomEv.body e ≠ [])) ∧
    ((drain_output_events 8 2 [AtomEv.mk 0 8 [144, 60, 127], AtomEv.mk 5 3 [1, 2]]
        ⟨100, []⟩).1.buf =
      atomFrames [AtomEv.mk 0 8 [144, 60, 127], AtomEv.mk 5 3 [1, 2]] ∧
    ui_drain_atom 2 ⟨100, atomFrames [AtomEv.mk 0 8 [144, 60, 127], AtomEv.mk 5 3 [1, 2]]⟩ =
      ([AtomEv.mk 0 8 [144, 60, 127], AtomEv.mk 5 3 [1, 2]].map atomEvFrame, ⟨100, []⟩) ∧
    (ui_drain_atom 2
        ⟨100, atomFrames [AtomEv.mk 0 8 [144, 60, 127], AtomEv.mk 5 3 [1, 2]]⟩).1.length = 2 ∧
    (drain_output_events 8 2 [AtomEv.mk 0 8 [144, 60, 127], AtomEv.mk 5 3 [1, 2]]
        ⟨100, []⟩).2 =
      ([AtomEv.mk 0 8 [144, 60, 127], AtomEv.mk 5 3 [1, 2]].filter
        (fun e => e.typ == 8)).map (fun e => (e.time, e.body)) ∧
    (∀ (evs' : List AtomEv) (r : Ring),
      drain_output_events 8 0 evs' r = (r, [])) ∧
    (∀ r : Ring,
      drain_output_events 8 2
        ([AtomEv.mk 0 8 [144, 60, 127]] ++ ⟨7, 9, []⟩ :: [AtomEv.mk 1 1 [9]]) r =
      drain_output_events 8 2 [AtomEv.mk 0 8 [144, 60, 127]] r)) := by
  refine ⟨⟨by decide, by decide, by decide, by decide, rfl, by decide⟩, ?_⟩
  exact claim_C2 8 2 100 [AtomEv.mk 0 8 [144, 60, 127], AtomEv.mk 5 3 [1, 2]]
    [AtomEv.mk 0 8 [144, 60, 127]] [AtomEv.mk 1 1 [9]] ⟨7, 9, []⟩
    (by decide) (by decide) (by decide) (by decide) rfl (by decide)

/-! ## Atom sequence buffers at byte level (`process` lines 915-963,
init lines 815-831)

Each atom port owns an `LV2_Atom_Sequence*` buffer of `atom_buf_size`
bytes.  We model the leading `LV2_Atom` header by the fields `typ` and
`size` and the rest of the buffer (the atom body, starting with the
8-byte `LV2_Atom_Sequence_Body`) as the byte list `body` of length
`atom_buf_size − 8`.  The inline helpers `lv2_atom_sequence_clear`,
`lv2_atom_sequence_append_event` and the sequence iterator are embedded
from their definitions in the LV2 headers (`lv2/atom/util.h`), which the
host includes. -/

structure AtomBuf where
  typ : Nat
  size : Nat
  body : List Nat
  deriving Repr, DecidableEq

/-- `lv2_atom_pad_size`: round up to a multiple of 8. -/
def lv2_atom_pad_size (n : Nat) : Nat := (n + 7) / 8 * 8

/-- Overwrite `bs.length` bytes of `l` starting at offset `off`
(a `memcpy` into the buffer). -/
def writeBytesAt (l : List Nat) (off : Nat) (bs : List Nat) : List Nat :=
  l.take off ++ bs ++ l.drop (off + bs.length)

/-- The packed bytes of an `LV2_Atom_Event`: `int64 time.frames`, then the
`LV2_Atom` body header `{uint32 size; uint32 type}`, then the body. -/
def eventBytes (time etype : Nat) (ebody : List Nat) : List Nat :=
  u64le time ++ u32le ebody.length ++ u32le etype ++ ebody

/-- `lv2_atom_sequence_append_event(seq, capacity, event)`: fail (returning
NULL, leaving the buffer unchanged) when
`capacity - seq->atom.size < total_size` in `uint32_t` arithmetic;
otherwise `memcpy` the event to `lv2_atom_sequence_end(&seq->body,
seq->atom.size)` — offset `lv2_atom_pad_size(size)` into the atom body —
and grow `atom.size` by the padded total. -/
def lv2_atom_sequence_append_event (cap : Nat) (s : AtomBuf)
    (time etype : Nat) (ebody : List Nat) : AtomBuf :=
  if (cap + 2 ^ 32 - s.size) % 2 ^ 32 < 16 + ebody.length then s
  else
    { s with
      body := writeBytesAt s.body (lv2_atom_pad_size s.size)
        (eventBytes time etype ebody),
      size := s.size + lv2_atom_pad_size (16 + ebody.length) }

/-- The input-atom-port preparation phase of `process` (lines 929-962).
For a MIDI port: `lv2_atom_sequence_clear` (which sets
`atom.size = sizeof(LV2_Atom_Sequence_Body)`), set `type`/`size`
explicitly, then append one event per host MIDI event with
`time.frames = ev.time`, `body.type = urids.midi_Event` and the MIDI
bytes.  Then, for any input atom port, if the UI→DSP cell is pending:
set `type = Sequence`, set `atom.size = 0`, and append the cell as one
event with `frame = 0` and the recorded type. -/
def process_input_atom (cap seqURID midiURID : Nat) (is_midi_port : Bool)
    (midi : List (Nat × List Nat)) (cell : Option (Nat × List Nat))
    (s : AtomBuf) : AtomBuf :=
  let s1 :=
    if is_midi_port then
      let sc : AtomBuf := { s with size := 8 }
      let st : AtomBuf := { sc with typ := seqURID, size := 8 }
      midi.foldl
        (fun acc ev => lv2_atom_sequence_append_event cap acc ev.1 midiURID ev.2)
        st
    else s
  match cell with
  | none => s1
  | some (ctype, cbytes) =>
    lv2_atom_sequence_append_event cap
      { s1 with typ := seqURID, size := 0 } 0 ctype cbytes

/-- The sequence iterator (`lv2_atom_sequence_begin` /
`lv2_atom_sequence_is_end` / `lv2_atom_sequence_next` as used by
`LV2_ATOM_SEQUENCE_FOREACH`): events are read from atom-body offset 8
(past the `LV2_Atom_Sequence_Body`) while the iterator is below
`atom.size`; each event is `(time, body.size, body.type, body bytes)` and
the iterator advances by `sizeof(LV2_Atom_Event) +
lv2_atom_pad_size(body.size)`. -/
def parse_seq_events (body : List Nat) (size : Nat) :
    Nat → Nat → List (Nat × Nat × Nat × List Nat)
  | 0, _ => []
  | fuel + 1, off =>
    if size ≤ off then []
    else
      let esize := u32dec ((body.drop (off + 8)).take 4)
      (u64dec ((body.drop off).take 8), esize,
        u32dec ((body.drop (off + 12)).take 4),
        (body.drop (off + 16)).take esize)
        :: parse_seq_events body size fuel (off + 16 + lv2_atom_pad_size esize)

/-- The events a reader of the sequence buffer observes. -/
def parse_seq (s : AtomBuf) : List (Nat × Nat × Nat × List Nat) :=
  parse_seq_events s.body s.size s.size 8

/-- C1: evaluating the preparation phase at one host MIDI event
(`90 3C 7F` at time 0) with a pending UI→DSP cell (type 42, 8 bytes)
on a freshly initialised 8192-byte input MIDI atom port: the claim
expects the sequence to contain the MIDI event followed by the UI event;
instead, because the code resets `atom.size` to 0 before appending, the
UI event is written over the `LV2_Atom_Sequence_Body` header at body
offset 0 while the iterator reads from offset 8, so the reader observes
a single garbage event — the MIDI event is lost and the UI message is
not readable either. -/
theorem claim_C1 :
    parse_seq (process_input_atom 8192 2 8 true [(0, [144, 60, 127])]
        (some (42, [1, 0, 0, 0, 7, 0, 0, 0])) ⟨2, 8, List.replicate 8184 0⟩)
      = [(8 + 42 * 2 ^ 32, 1, 7, [144])] ∧
    parse_seq (process_input_atom 8192 2 8 true [(0, [144, 60, 127])]
        (some (42, [1, 0, 0, 0, 7, 0, 0, 0])) ⟨2, 8, List.replicate 8184 0⟩)
      ≠ [(0, 3, 8, [144, 60, 127]), (0, 8, 42, [1, 0, 0, 0, 7, 0, 0, 0])] := by
  constructor <;> decide

/-! ## Output atom port header resets (`process` lines 924-927 and
999-1000) -/

/-- Pre-run preparation of an output atom port (`process` lines 924-927):
`atom.type = 0`, `atom.size = atom_buf_size − sizeof(LV2_Atom)`. -/
def prepare_output_atom (atom_buf_size : Nat) (s : AtomBuf) : AtomBuf :=
  { s with typ := 0, size := atom_buf_size - 8 }

/-- Post-drain reset of an output atom port (`process` lines 999-1000):
`atom.type = 0`, `atom.size = required_atom_size` — the full buffer size,
not `atom_buf_size − sizeof(LV2_Atom)`. -/
def reset_output_atom_after_drain (required_atom_size : Nat)
    (s : AtomBuf) : AtomBuf :=
  { s with typ := 0, size := required_atom_size }

/-- Counterexample for C8 as stated: after the drain of a default
8192-byte port the header size is 8192, not `8192 − sizeof(LV2_Atom)` as
the claim requires. -/
theorem claim_C8_cex :
    (reset_output_atom_after_drain 8192 ⟨0, 0, []⟩).size ≠ 8192 - 8 := by
  decide

/-- C8 (amended): before `run` the output header is reset to `type = 0`,
`size = capacity − sizeof(LV2_Atom)`; the post-drain reset also sets
`type = 0` but `size = required_atom_size`, which equals the full
capacity (init sets `atom_buf_size = required_atom_size`), so the two
resets differ by `sizeof(LV2_Atom)` = 8 bytes. -/
theorem claim_C8 (s s' : AtomBuf) (cap req : Nat)
    (hpos : 0 < cap) (hreq : req = cap) :
    (prepare_output_atom cap s).typ = 0 ∧
    (prepare_output_atom cap s).size = cap - 8 ∧
    (reset_output_atom_after_drain req s').typ = 0 ∧
    (reset_output_atom_after_drain req s').size = cap ∧
    (reset_output_atom_after_drain req s').size ≠ (prepare_output_atom cap s).size := by
  subst hreq
  refine ⟨rfl, rfl, rfl, rfl, ?_⟩
  simp only [reset_output_atom_after_drain, prepare_output_atom]
  omega

/-- Witness for C8 (amended) at the default 8192-byte buffer. -/
theorem claim_C8_witness :
    ((0 : Nat) < 8192 ∧ (8192 : Nat) = 8192) ∧
    ((prepare_output_atom 8192 ⟨0, 0, []⟩).typ = 0 ∧
    (prepare_output_atom 8192 ⟨0, 0, []⟩).size = 8192 - 8 ∧
    (reset_output_atom_after_drain 8192 ⟨9, 9, []⟩).typ = 0 ∧
    (reset_output_atom_after_drain 8192 ⟨9, 9, []⟩).size = 8192 ∧
    (reset_output_atom_after_drain 8192 ⟨9, 9, []⟩).size ≠
      (prepare_output_atom 8192 ⟨0, 0, []⟩).size) :=
  ⟨⟨by decide, rfl⟩, claim_C8 ⟨0, 0, []⟩ ⟨9, 9, []⟩ 8192 8192 (by decide) rfl⟩

/-! ## Ports, preset restore (`set_port_value` lines 270-283,
`apply_preset` lines 301-351)

Control values are C `float` cells that the host only ever copies
(`p.control = *(const float*)value`); we carry them as uninterpreted `Nat` bit
patterns, which is faithful because no arithmetic is performed. -/

structure Port where
  index : Nat
  is_audio : Bool := false
  is_input : Bool := false
  is_control : Bool := false
  is_atom : Bool := false
  is_midi : Bool := false
  control : Nat := 0
  defvalue : Nat := 0
  uri : String := ""
  symbol : String := ""
  deriving Repr, DecidableEq

/-- `set_port_value` (lines 270-283): scan the port vector; skip
non-control ports; at the first port whose symbol matches, store the
value if it is float-sized (4 bytes), then `break` — the rest of the
vector is left untouched even if the size check failed. -/
def set_port_value (port_symbol : String) (value size : Nat) :
    List Port → List Port
  | [] => []
  | p :: rest =>
    if p.is_control = false then
      p :: set_port_value port_symbol value size rest
    else if p.symbol = port_symbol then
      (if size = 4 then { p with control := value } else p) :: rest
    else
      p :: set_port_value port_symbol value size rest

/-- `lilv_state_restore` invokes `set_port_value` once per restored
port-value property; a state is modelled by its list of
`(symbol, size, value)` entries in restore order. -/
def restore_state (entries : List (String × Nat × Nat))
    (ports : List Port) : List Port :=
  entries.foldl (fun ps e => set_port_value e.1 e.2.2 e.2.1 ps) ports

structure PresetHost where
  ports : List Port
  ui_needs_initial_update : Bool
  ui_needs_control_update : Bool
  errors : List String
  deriving Repr, DecidableEq

/-- `apply_preset` (lines 301-351).  The lilv results are parameters:
`presetNodeOk` is `lilv_new_uri` succeeding, `worldState` the state from
`lilv_state_new_from_world`, `filePathOk` `lilv_file_uri_parse`
succeeding, `fileState` the state from `lilv_state_new_from_file`.
On the file-load path the inner declaration
`LilvState* state = lilv_state_new_from_file(...)` shadows the outer
`state`, which remains NULL; `lilv_state_restore` then receives the
outer NULL pointer and restores nothing (lilv guards a NULL state with
an error log and early return), yet the flags are still flipped as on a
successful restore. -/
def apply_preset (presetNodeOk : Bool)
    (worldState : Option (List (String × Nat × Nat)))
    (filePathOk : Bool)
    (fileState : Option (List (String × Nat × Nat)))
    (h : PresetHost) : PresetHost :=
  if presetNodeOk = false then
    { h with errors := h.errors ++ ["Invalid preset URI"],
             ui_needs_initial_update := true }
  else
    match worldState with
    | some entries =>
      { h with ports := restore_state entries h.ports,
               ui_needs_control_update := true,
               ui_needs_initial_update := false }
    | none =>
      if filePathOk = false then
        { h with errors := h.errors ++ ["Preset not found"],
                 ui_needs_initial_update := true }
      else
        match fileState with
        | none =>
          { h with errors := h.errors ++ ["Failed to load preset"],
                   ui_needs_initial_update := true }
        | some _ =>
          { h with ui_needs_control_update := true,
                   ui_needs_initial_update := false }

/-- C6: evaluation at the failing input.  A preset that is absent from
the plugin world but loads successfully from its file path restores
nothing — the shadowed `state` variable means `lilv_state_restore` sees
NULL — although `ui_needs_control_update` is still set; the identical
state restored through the world path does update the matching input
control port.  The claim (every matching input control port holds the
preset's value after a successful load) is the intended behaviour; the
code loses it on the file path. -/
theorem claim_C6 :
    (apply_preset true none true (some [("gain", 4, 5)])
        ⟨[{ index := 0, is_control := true, is_input := true,
            symbol := "gain", control := 1 }], false, false, []⟩).ports =
      [{ index := 0, is_control := true, is_input := true,
         symbol := "gain", control := 1 }] ∧
    (apply_preset true none true (some [("gain", 4, 5)])
        ⟨[{ index := 0, is_control := true, is_input := true,
            symbol := "gain", control := 1 }], false, false, []⟩).ui_needs_control_update
      = true ∧
    (apply_preset true none true (some [("gain", 4, 5)])
        ⟨[{ index := 0, is_control := true, is_input := true,
            symbol := "gain", control := 1 }], false, false, []⟩).ui_needs_initial_update
      = false ∧
    (apply_preset true (some [("gain", 4, 5)]) false none
        ⟨[{ index := 0, is_control := true, is_input := true,
            symbol := "gain", control := 1 }], false, false, []⟩).ports =
      [{ index := 0, is_control := true, is_input := true,
         symbol := "gain", control := 5 }] := by
  refine ⟨rfl, rfl, rfl, rfl⟩

/-- C7: on every failure path of `apply_preset` — invalid preset URI, or
state loadable neither from the world nor from a parsed file path — an
error is reported, the ports are untouched, `ui_needs_initial_update` is
set, and `ui_needs_control_update` is left as it was. -/
theorem claim_C7 (pn fp : Bool)
    (ws fs : Option (List (String × Nat × Nat))) (h : PresetHost)
    (hfail : pn = false ∨ (ws = none ∧ (fp = false ∨ fs = none))) :
    (apply_preset pn ws fp fs h).ports = h.ports ∧
    (apply_preset pn ws fp fs h).ui_needs_initial_update = true ∧
    (apply_preset pn ws fp fs h).ui_needs_control_update =
      h.ui_needs_control_update ∧
    (apply_preset pn ws fp fs h).errors.length = h.errors.length + 1 := by
  rcases hfail with hpn | ⟨hws, hrest⟩
  · subst hpn
    simp [apply_preset]
  · subst hws
    rcases hrest with hfp | hfs
    · subst hfp
      cases pn <;> simp [apply_preset]
    · subst hfs
      cases pn <;> cases fp <;> simp [apply_preset]

/-- Witness for C7: a concrete host with the preset URI invalid. -/
theorem claim_C7_witness :
    ((false : Bool) = false ∨
      ((none : Option (List (String × Nat × Nat))) = none ∧
        ((true : Bool) = false ∨
          (none : Option (List (String × Nat × Nat))) = none))) ∧
    ((apply_preset false none true none
        ⟨[{ index := 2, is_control := true, symbol := "s", control := 7 }],
          false, false, []⟩).ports =
      [{ index := 2, is_control := true, symbol := "s", control := 7 }] ∧
    (apply_preset false none true none
        ⟨[{ index := 2, is_control := true, symbol := "s", control := 7 }],
          false, false, []⟩).ui_needs_initial_update = true ∧
    (apply_preset false none true none
        ⟨[{ index := 2, is_control := true, symbol := "s", control := 7 }],
          false, false, []⟩).ui_needs_control_update = false ∧
    (apply_preset false none true none
        ⟨[{ index := 2, is_control := true, symbol := "s", control := 7 }],
          false, false, []⟩).errors.length = 0 + 1) :=
  ⟨Or.inl rfl,
    claim_C7 false true none none
      ⟨[{ index := 2, is_control := true, symbol := "s", control := 7 }],
        false, false, []⟩ (Or.inl rfl)⟩

/-! ## Shutdown (`closeHost` lines 81-139, `stop_worker` lines 465-484,
`destroy_ui` lines 1093-1098)

Resources are modelled by presence flags (pointer non-null / thread
running / port registered); each teardown step is paired with the list
of side effects it performs so that a second invocation can be shown to
be a no-op. -/

structure ClosePort where
  is_audio : Bool := false
  is_atom : Bool := false
  is_midi : Bool := false
  jack_connected : Bool := false
  atom_alloc : Bool := false
  atom_state_alloc : Bool := false
  deriving Repr, DecidableEq

structure HostRes where
  inst : Bool
  worker_running : Bool
  worker_requests : Bool
  worker_responses : Bool
  worker_iface : Bool
  ui_desc_set : Bool
  ui_handle : Bool
  ui_dl : Bool
  jack : Bool
  ports : List ClosePort
  x_display : Bool
  x_window : Bool
  world : Bool
  deriving Repr, DecidableEq

/-- `stop_worker` (lines 465-484): `running.exchange(false)` returning
false ends the call; otherwise join the thread, free whichever rings are
non-null, and clear the interface and handle. -/
def stop_worker (h : HostRes) : HostRes × List String :=
  if h.worker_running = false then (h, [])
  else
    ({ h with worker_running := false, worker_requests := false,
              worker_responses := false, worker_iface := false },
     ["join worker"] ++
       (if h.worker_requests then ["free request ring"] else []) ++
       (if h.worker_responses then ["free response ring"] else []))

/-- `destroy_ui` (lines 1093-1098): run the UI cleanup hook only when
both the descriptor and the handle are present; only the handle is
cleared. -/
def destroy_ui (h : HostRes) : HostRes × List String :=
  if h.ui_desc_set && h.ui_handle then
    ({ h with ui_handle := false }, ["ui cleanup"])
  else (h, [])

/-- The per-port JACK teardown inside the `if (jack)` branch of
`closeHost` (lines 93-106): audio ports and MIDI atom ports are
disconnected when connected and unregistered. -/
def jackPortEffects (ports : List ClosePort) : List String :=
  (ports.map (fun p =>
    (if p.is_audio then
        (if p.jack_connected then ["disconnect"] else []) ++ ["unregister"]
      else []) ++
    (if p.is_atom && p.is_midi then
        (if p.jack_connected then ["disconnect"] else []) ++ ["unregister"]
      else []))).flatten

/-- The final port cleanup of `closeHost` (lines 127-132): free each
port's atom buffer when allocated and delete its atom state, then clear
the vector. -/
def portFreeEffects (ports : List ClosePort) : List String :=
  (ports.map (fun p =>
    (if p.atom_alloc then ["free atom"] else []) ++
    (if p.atom_state_alloc then ["delete atom state"] else []))).flatten

/-- `closeHost` lines 82-84: deactivate the instance when present (the
pointer is not cleared here; that happens in the later free step). -/
def step_deactivate (h : HostRes) : HostRes × List String :=
  if h.inst then (h, ["deactivate instance"]) else (h, [])

/-- `closeHost` lines 87-90: `dlclose` the UI shared object when loaded. -/
def step_dlclose (h : HostRes) : HostRes × List String :=
  if h.ui_dl then ({ h with ui_dl := false }, ["dlclose ui"]) else (h, [])

/-- `closeHost` lines 92-111: when the JACK client exists, disconnect and
unregister the audio and MIDI atom ports, deactivate and close the
client. -/
def step_jack (h : HostRes) : HostRes × List String :=
  if h.jack then
    ({ h with jack := false },
     jackPortEffects h.ports ++ ["jack deactivate", "jack close"])
  else (h, [])

/-- `closeHost` lines 113-116: free the instance when present. -/
def step_free_instance (h : HostRes) : HostRes × List String :=
  if h.inst then ({ h with inst := false }, ["free instance"]) else (h, [])

/-- `closeHost` lines 118-125: destroy the window when present, close the
display, and clear both. -/
def step_x11 (h : HostRes) : HostRes × List String :=
  if h.x_display then
    ({ h with x_display := false, x_window := false },
     (if h.x_window then ["destroy window"] else []) ++ ["close display"])
  else (h, [])

/-- `closeHost` lines 127-132: free each port's allocations and clear the
vector. -/
def step_ports (h : HostRes) : HostRes × List String :=
  ({ h with ports := [] }, portFreeEffects h.ports)

/-- `closeHost` lines 134-138: free the plugin world when present. -/
def step_world (h : HostRes) : HostRes × List String :=
  if h.world then ({ h with world := false }, ["free world"]) else (h, [])

/-- Sequencing of teardown steps: thread the state, accumulate the
effects. -/
def andThen : HostRes × List String →
    (HostRes → HostRes × List String) → HostRes × List String
  | (h, es), f => ((f h).1, es ++ (f h).2)

/-- `closeHost` (lines 81-139), the steps in source order. -/
def closeHost (h : HostRes) : HostRes × List String :=
  andThen (andThen (andThen (andThen (andThen (andThen (andThen (andThen
    (step_deactivate h)
    stop_worker) destroy_ui) step_dlclose) step_jack)
    step_free_instance) step_x11) step_ports) step_world

set_option maxHeartbeats 4000000 in
theorem closed_of_closeHost (h : HostRes) :
    (closeHost h).1.inst = false ∧ (closeHost h).1.worker_running = false ∧
    ((closeHost h).1.ui_desc_set && (closeHost h).1.ui_handle) = false ∧
    (closeHost h).1.ui_dl = false ∧ (closeHost h).1.jack = false ∧
    (closeHost h).1.ports = [] ∧ (closeHost h).1.x_display = false ∧
    (closeHost h).1.world = false := by
  rcases h with ⟨inst, wr, wreq, wresp, wif, uds, uh, udl, j, ports, xd, xw, w⟩
  cases inst <;> cases wr <;> cases uds <;> cases uh <;> cases udl <;>
    cases j <;> cases xd <;> cases w <;>
    exact ⟨rfl, rfl, rfl, rfl, rfl, rfl, rfl, rfl⟩

theorem closeHost_of_closed (h : HostRes)
    (h1 : h.inst = false) (h2 : h.worker_running = false)
    (h3 : (h.ui_desc_set && h.ui_handle) = false)
    (h4 : h.ui_dl = false) (h5 : h.jack = false) (h6 : h.ports = [])
    (h7 : h.x_display = false) (h8 : h.world = false) :
    closeHost h = (h, []) := by
  rcases h with ⟨inst, wr, wreq, wresp, wif, uds, uh, udl, j, ports, xd, xw, w⟩
  simp only at h1 h2 h3 h4 h5 h6 h7 h8
  subst h1; subst h2; subst h4; subst h5; subst h6; subst h7; subst h8
  cases uds with
  | false => cases uh <;> rfl
  | true =>
    cases uh with
    | false => rfl
    | true => exact absurd h3 (by decide)

/-- C9: `closeHost` is idempotent: invoking it a second time performs
no effect and returns the state unchanged, because every teardown step
checks its own precondition and clears it. -/
theorem claim_C9 (h : HostRes) :
    closeHost (closeHost h).1 = ((closeHost h).1, []) := by
  obtain ⟨c1, c2, c3, c4, c5, c6, c7, c8⟩ := closed_of_closeHost h
  exact closeHost_of_closed _ c1 c2 c3 c4 c5 c6 c7 c8

/-! ## `ui_port_map` (lines 1051-1056)

The UI feature callback scans the port vector for the first port whose
`uri` — built at init (lines 778-783) as `plugin_uri + "#" + symbol` —
equals the argument and returns its index, else
`LV2UI_INVALID_PORT_INDEX` (`(uint32_t)-1` = 4294967295).  The function
only reads `self->ports`; it is embedded as a pure function of the port
vector, so it cannot change host state. -/

def mkPortUri (plugin_uri sym : String) : String := plugin_uri ++ "#" ++ sym

def ui_port_map (ports : List Port) (uri : String) : Nat :=
  match ports with
  | [] => 4294967295
  | p :: rest => if p.uri = uri then p.index else ui_port_map rest uri

/-- C10: when every port's `uri` field carries the constructed
`plugin_uri#symbol` string, `ui_port_map` returns the index of the first
port whose constructed URI equals the argument, and
`LV2UI_INVALID_PORT_INDEX` when none matches. -/
theorem claim_C10 (plugin_uri u : String) (ports : List Port)
    (hconstr : ∀ p ∈ ports, p.uri = mkPortUri plugin_uri p.symbol) :
    (∀ q, ports.find? (fun p => mkPortUri plugin_uri p.symbol == u) = some q →
      ui_port_map ports u = q.index) ∧
    (ports.find? (fun p => mkPortUri plugin_uri p.symbol == u) = none →
      ui_port_map ports u = 4294967295) := by
  induction ports with
  | nil => exact ⟨fun q hq => by simp at hq, fun _ => rfl⟩
  | cons p rest ih =>
    have hp := hconstr p (by simp)
    have ihr := ih (fun x hx => hconstr x (List.mem_cons_of_mem p hx))
    by_cases hm : mkPortUri plugin_uri p.symbol = u
    · refine ⟨fun q hq => ?_, fun hn => ?_⟩
      · rw [List.find?_cons_of_pos _ (by simpa using hm)] at hq
        injection hq with hq
        subst hq
        unfold ui_port_map
        rw [if_pos (hp.trans hm)]
      · rw [List.find?_cons_of_pos _ (by simpa using hm)] at hn
        cases hn
    · refine ⟨fun q hq => ?_, fun hn => ?_⟩
      · rw [List.find?_cons_of_neg _ (by simpa using hm)] at hq
        unfold ui_port_map
        rw [if_neg (by rw [hp]; exact hm)]
        exact ihr.1 q hq
      · rw [List.find?_cons_of_neg _ (by simpa using hm)] at hn
        unfold ui_port_map
        rw [if_neg (by rw [hp]; exact hm)]
        exact ihr.2 hn

/-- Witness for C10: a two-port vector; the URI of the second port is
found at index 5, and an unknown URI maps to the invalid index. -/
theorem claim_C10_witness :
    (∀ p ∈ [{ index := 3, symbol := "in", uri := "urn:p#in" },
            ({ index := 5, symbol := "out", uri := "urn:p#out" } : Port)],
      Port.uri p = mkPortUri "urn:p" p.symbol) ∧
    (∀ q, ([{ index := 3, symbol := "in", uri := "urn:p#in" },
            ({ index := 5, symbol := "out", uri := "urn:p#out" } : Port)].find?
        (fun p => mkPortUri "urn:p" p.symbol == "urn:p#out") = some q) →
      ui_port_map [{ index := 3, symbol := "in", uri := "urn:p#in" },
            { index := 5, symbol := "out", uri := "urn:p#out" }] "urn:p#out" = q.index) ∧
    (([{ index := 3, symbol := "in", uri := "urn:p#in" },
        ({ index := 5, symbol := "out", uri := "urn:p#out" } : Port)].find?
        (fun p => mkPortUri "urn:p" p.symbol == "urn:p#out") = none) →
      ui_port_map [{ index := 3, symbol := "in", uri := "urn:p#in" },
            { index := 5, symbol := "out", uri := "urn:p#out" }] "urn:p#out" = 4294967295) :=
  ⟨by decide,
    claim_C10 "urn:p" "urn:p#out"
      [{ index := 3, symbol := "in", uri := "urn:p#in" },
       { index := 5, symbol := "out", uri := "urn:p#out" }] (by decide)⟩

end Luma
